import Mathlib

/-!
Verification development for the `sketch` program (`src/aaa.go`).

The program approximates an image by repeatedly drawing random line
segments onto a trial canvas, scoring the segment's pixels against the
target, and committing the better canvas along the segment.

Shallow embedding conventions:
* Go's `*image.RGBA` is modelled by `Sketchfy.Img`: a width, a height and a
  pixel function.  Bounds are `[0,w) × [0,h)` with min point `(0,0)`, which
  is how every buffer in `sketch` is created (`image.NewRGBA(src.Bounds())`
  on decoded PNG input).  `At` out of bounds returns the zero `color.RGBA{}`
  and `Set` out of bounds is a no-op, following the Go standard library's
  `image.RGBA.At`/`Set`.
* `float64` arithmetic in `calcdiff`/`bdiff` is modelled by real arithmetic
  (`ℝ`, `Real.sqrt`); the channel values are exact small integers.
* `rand.Intn n` is modelled by `randIntn n r` where `r` is raw entropy
  supplied by a stream: it returns `r % n` for `n > 0` and `none`
  (Go: panic) for `n ≤ 0`.
* Wall-clock interval checks in the loop are modelled by boolean oracles
  `saveDue`/`statDue`.
-/

set_option maxHeartbeats 1000000

namespace Sketchfy

/-! ## Data model: pixels and images (Go `image.RGBA`) -/

/-- A pixel of Go's RGBA color model: four 8-bit channels as stored in
`image.RGBA` (values `0..255`; the model does not need the upper bound). -/
structure Pixel where
  r : Nat
  g : Nat
  b : Nat
  a : Nat
deriving DecidableEq, Repr

/-- The zero pixel `color.RGBA{}`, returned by `image.RGBA.At` for
out-of-bounds coordinates. -/
def Pixel.zero : Pixel := ⟨0, 0, 0, 0⟩

/-- Model of Go's `*image.RGBA`: a `w × h` grid of pixels with bounds
`[0,w) × [0,h)`.  `pix` is the backing store; values of `pix` outside the
bounds are junk that is never observed (`atP` masks them). -/
structure Img where
  w : Nat
  h : Nat
  pix : Nat → Nat → Pixel

/-- `(x, y)` lies inside the bounds `[0,w) × [0,h)`. -/
def inB (w h : Nat) (x y : Int) : Prop :=
  0 ≤ x ∧ x < (w : Int) ∧ 0 ≤ y ∧ y < (h : Int)

instance (w h : Nat) (x y : Int) : Decidable (inB w h x y) := by
  unfold inB
  exact inferInstance

/-- `image.RGBA.At`: the pixel at `(x, y)`, or the zero pixel out of
bounds. -/
def atP (img : Img) (x y : Int) : Pixel :=
  if inB img.w img.h x y then img.pix x.toNat y.toNat else Pixel.zero

/-- `image.RGBA.Set`: write pixel `c` at `(x, y)`; no-op out of bounds. -/
def setP (img : Img) (x y : Int) (c : Pixel) : Img :=
  if inB img.w img.h x y then
    ⟨img.w, img.h, fun u v => if u = x.toNat ∧ v = y.toNat then c else img.pix u v⟩
  else img

/-- Two images have equal dimensions (all buffers in `sketch` are created
with the same bounds). -/
def sameDims (a b : Img) : Prop := a.w = b.w ∧ a.h = b.h

/-! ## The per-pixel difference (`calcdiff`, lines 149-165)

`color.RGBA.RGBA()` expands each stored 8-bit channel `v` to 16-bit
precision as `v | v<<8 = 257*v`.  `calcdiff` takes the signed difference of
each of the four expanded channels, squares each, sums the four squares and
takes one square root per coordinate. -/

/-- 16-bit channel expansion performed by `color.RGBA.RGBA()`. -/
def chan16 (v : Nat) : Int := (v : Int) * 257

/-- The summed squared 4-channel difference of two pixels (the argument of
the square root in `calcdiff`). -/
def sqdist (p q : Pixel) : Int :=
  (chan16 q.r - chan16 p.r) ^ 2 + (chan16 q.g - chan16 p.g) ^ 2 +
    (chan16 q.b - chan16 p.b) ^ 2 + (chan16 q.a - chan16 p.a) ^ 2

/-- `calcdiff` (lines 149-165): the Euclidean distance in 4-channel space
between the pixels of `a` and `b` at `(x, y)`.  `float64` is modelled by
`ℝ`. -/
noncomputable def calcdiff (a b : Img) (x y : Int) : ℝ :=
  Real.sqrt ((sqdist (atP a x y) (atP b x y) : Int) : ℝ)

/-! ## The common Bresenham traversal

`bdiff` (lines 49-147), `bcopy` (lines 167-263) and the third-party
`bresenham.Bresenham` used for drawing share one loop structure:
after normalizing so that `x1 ≤ x2` they branch on degenerate /
horizontal / vertical / diagonal / x-driving / y-driving geometry.

The two loop shapes are factored out below, parametrized by the step
deltas; each branch of the top-level functions instantiates them exactly
as the corresponding Go loop does:

* `..Step sx sy n`: visit the current coordinate and step by `(sx, sy)`,
  `n` times, then visit once more (the Go pattern
  `for ; d != 0; d-- { visit; step }` followed by a final `visit`).
* `..Bres ux uy cx cy d slope n`: visit the current coordinate, take the
  unconditional driving step `(ux, uy)`, subtract `d` from the error
  accumulator and, when it goes negative, take the conditional step
  `(cx, cy)` and add `slope` back — `n` times.  The explicit endpoint
  visit after these loops is written at the call sites, as in the source.
-/

/-- Coordinates visited by the simple loops (degenerate, horizontal,
vertical, diagonal cases): `n + 1` points stepping by `(sx, sy)`. -/
def bresStep (sx sy : Int) : Nat → Int → Int → List (Int × Int)
  | 0, x, y => [(x, y)]
  | n + 1, x, y => (x, y) :: bresStep sx sy n (x + sx) (y + sy)

/-- Coordinates visited by the error-accumulator loops (`dx > dy` and
`dx < dy` cases), excluding the explicit endpoint appended after them. -/
def bresBres (ux uy cx cy d slope : Int) : Nat → Int → Int → Int → List (Int × Int)
  | 0, _, _, _ => []
  | n + 1, x, y, e =>
      (x, y) ::
        (if e - d < 0 then bresBres ux uy cx cy d slope n (x + ux + cx) (y + uy + cy) (e - d + slope)
         else bresBres ux uy cx cy d slope n (x + ux) (y + uy) (e - d))

/-- The simple loops of `bdiff`, accumulating `calcdiff` over the visited
coordinates. -/
noncomputable def bdiffStep (a b : Img) (sx sy : Int) : Nat → Int → Int → ℝ
  | 0, x, y => calcdiff a b x y
  | n + 1, x, y => calcdiff a b x y + bdiffStep a b sx sy n (x + sx) (y + sy)

/-- The error-accumulator loops of `bdiff`. -/
noncomputable def bdiffBres (a b : Img) (ux uy cx cy d slope : Int) : Nat → Int → Int → Int → ℝ
  | 0, _, _, _ => 0
  | n + 1, x, y, e =>
      calcdiff a b x y +
        (if e - d < 0 then bdiffBres a b ux uy cx cy d slope n (x + ux + cx) (y + uy + cy) (e - d + slope)
         else bdiffBres a b ux uy cx cy d slope n (x + ux) (y + uy) (e - d))

/-- The simple loops of `bcopy`: `img.Set(x1, y1, src.At(x1, y1))` at each
visited coordinate. -/
def bcopyStep (src : Img) (sx sy : Int) : Nat → Int → Int → Img → Img
  | 0, x, y, img => setP img x y (atP src x y)
  | n + 1, x, y, img => bcopyStep src sx sy n (x + sx) (y + sy) (setP img x y (atP src x y))

/-- The error-accumulator loops of `bcopy`. -/
def bcopyBres (src : Img) (ux uy cx cy d slope : Int) : Nat → Int → Int → Int → Img → Img
  | 0, _, _, _, img => img
  | n + 1, x, y, e, img =>
      if e - d < 0 then
        bcopyBres src ux uy cx cy d slope n (x + ux + cx) (y + uy + cy) (e - d + slope)
          (setP img x y (atP src x y))
      else
        bcopyBres src ux uy cx cy d slope n (x + ux) (y + uy) (e - d)
          (setP img x y (atP src x y))

/-- The simple loops of the segment rasterizer: set each visited coordinate
to the constant color `c`. -/
def drawStep (c : Pixel) (sx sy : Int) : Nat → Int → Int → Img → Img
  | 0, x, y, img => setP img x y c
  | n + 1, x, y, img => drawStep c sx sy n (x + sx) (y + sy) (setP img x y c)

/-- The error-accumulator loops of the segment rasterizer. -/
def drawBres (c : Pixel) (ux uy cx cy d slope : Int) : Nat → Int → Int → Int → Img → Img
  | 0, _, _, _, img => img
  | n + 1, x, y, e, img =>
      if e - d < 0 then
        drawBres c ux uy cx cy d slope n (x + ux + cx) (y + uy + cy) (e - d + slope)
          (setP img x y c)
      else
        drawBres c ux uy cx cy d slope n (x + ux) (y + uy) (e - d) (setP img x y c)

/-- Go's `if dy < 0 { dy = -dy }` (lines 58-60 / 175-177). -/
def goAbs (d : Int) : Int := if d < 0 then -d else d

/-- The switch of `bdiff` (lines 62-145), after the `x1 ≤ x2`
normalization.  Each branch instantiates the loop helpers exactly as the
corresponding Go loop initializes its variables. -/
noncomputable def bdiffCore (a b : Img) (x1 y1 x2 y2 : Int) : ℝ :=
  if x1 = x2 ∧ y1 = y2 then
    calcdiff a b x1 y1
  else if y1 = y2 then
    bdiffStep a b 1 0 (x2 - x1).toNat x1 y1
  else if x1 = x2 then
    bdiffStep a b 0 1 (goAbs (y2 - y1)).toNat x1 (if y1 > y2 then y2 else y1)
  else if x2 - x1 = goAbs (y2 - y1) then
    (if y1 < y2 then bdiffStep a b 1 1 (x2 - x1).toNat x1 y1
     else bdiffStep a b 1 (-1) (x2 - x1).toNat x1 y1)
  else if x2 - x1 > goAbs (y2 - y1) then
    (if y1 < y2 then
       bdiffBres a b 1 0 0 1 (2 * goAbs (y2 - y1)) (2 * (x2 - x1)) (x2 - x1).toNat x1 y1 (x2 - x1)
     else
       bdiffBres a b 1 0 0 (-1) (2 * goAbs (y2 - y1)) (2 * (x2 - x1)) (x2 - x1).toNat x1 y1 (x2 - x1)) +
      calcdiff a b x2 y2
  else
    (if y1 < y2 then
       bdiffBres a b 0 1 1 0 (2 * (x2 - x1)) (2 * goAbs (y2 - y1)) (goAbs (y2 - y1)).toNat x1 y1 (goAbs (y2 - y1))
     else
       bdiffBres a b 0 (-1) 1 0 (2 * (x2 - x1)) (2 * goAbs (y2 - y1)) (goAbs (y2 - y1)).toNat x1 y1 (goAbs (y2 - y1))) +
      calcdiff a b x2 y2

/-- `bdiff` (lines 49-147): the difference score of images `a` and `b`
along the segment `(x1,y1)-(x2,y2)`, after the endpoint swap of
lines 53-55. -/
noncomputable def bdiff (a b : Img) (x1 y1 x2 y2 : Int) : ℝ :=
  if x1 > x2 then bdiffCore a b x2 y2 x1 y1 else bdiffCore a b x1 y1 x2 y2

/-- The switch of `bcopy` (lines 179-262), after the `x1 ≤ x2`
normalization. -/
def bcopyCore (img src : Img) (x1 y1 x2 y2 : Int) : Img :=
  if x1 = x2 ∧ y1 = y2 then
    setP img x1 y1 (atP src x1 y1)
  else if y1 = y2 then
    bcopyStep src 1 0 (x2 - x1).toNat x1 y1 img
  else if x1 = x2 then
    bcopyStep src 0 1 (goAbs (y2 - y1)).toNat x1 (if y1 > y2 then y2 else y1) img
  else if x2 - x1 = goAbs (y2 - y1) then
    (if y1 < y2 then bcopyStep src 1 1 (x2 - x1).toNat x1 y1 img
     else bcopyStep src 1 (-1) (x2 - x1).toNat x1 y1 img)
  else if x2 - x1 > goAbs (y2 - y1) then
    setP
      (if y1 < y2 then
         bcopyBres src 1 0 0 1 (2 * goAbs (y2 - y1)) (2 * (x2 - x1)) (x2 - x1).toNat x1 y1 (x2 - x1) img
       else
         bcopyBres src 1 0 0 (-1) (2 * goAbs (y2 - y1)) (2 * (x2 - x1)) (x2 - x1).toNat x1 y1 (x2 - x1) img)
      x2 y2 (atP src x2 y2)
  else
    setP
      (if y1 < y2 then
         bcopyBres src 0 1 1 0 (2 * (x2 - x1)) (2 * goAbs (y2 - y1)) (goAbs (y2 - y1)).toNat x1 y1 (goAbs (y2 - y1)) img
       else
         bcopyBres src 0 (-1) 1 0 (2 * (x2 - x1)) (2 * goAbs (y2 - y1)) (goAbs (y2 - y1)).toNat x1 y1 (goAbs (y2 - y1)) img)
      x2 y2 (atP src x2 y2)

/-- `bcopy` (lines 167-263): copy the pixels of `src` along the segment
into `img`, after the endpoint swap of lines 170-172. -/
def bcopy (img src : Img) (x1 y1 x2 y2 : Int) : Img :=
  if x1 > x2 then bcopyCore img src x2 y2 x1 y1 else bcopyCore img src x1 y1 x2 y2

/-- Modelled from the spec: the Segment Rasterizer (§4.2; in the program it
is the third-party `bresenham.Bresenham`, which is not part of this
repository's sources), drawing the constant color `c` along the segment.
The spec prescribes the same normalization, branch structure and
error-accumulator stepping as `bdiff`/`bcopy`; this is the switch after the
`x1 ≤ x2` normalization. -/
def drawCore (img : Img) (x1 y1 x2 y2 : Int) (c : Pixel) : Img :=
  if x1 = x2 ∧ y1 = y2 then
    setP img x1 y1 c
  else if y1 = y2 then
    drawStep c 1 0 (x2 - x1).toNat x1 y1 img
  else if x1 = x2 then
    drawStep c 0 1 (goAbs (y2 - y1)).toNat x1 (if y1 > y2 then y2 else y1) img
  else if x2 - x1 = goAbs (y2 - y1) then
    (if y1 < y2 then drawStep c 1 1 (x2 - x1).toNat x1 y1 img
     else drawStep c 1 (-1) (x2 - x1).toNat x1 y1 img)
  else if x2 - x1 > goAbs (y2 - y1) then
    setP
      (if y1 < y2 then
         drawBres c 1 0 0 1 (2 * goAbs (y2 - y1)) (2 * (x2 - x1)) (x2 - x1).toNat x1 y1 (x2 - x1) img
       else
         drawBres c 1 0 0 (-1) (2 * goAbs (y2 - y1)) (2 * (x2 - x1)) (x2 - x1).toNat x1 y1 (x2 - x1) img)
      x2 y2 c
  else
    setP
      (if y1 < y2 then
         drawBres c 0 1 1 0 (2 * (x2 - x1)) (2 * goAbs (y2 - y1)) (goAbs (y2 - y1)).toNat x1 y1 (goAbs (y2 - y1)) img
       else
         drawBres c 0 (-1) 1 0 (2 * (x2 - x1)) (2 * goAbs (y2 - y1)) (goAbs (y2 - y1)).toNat x1 y1 (goAbs (y2 - y1)) img)
      x2 y2 c

/-- Modelled from the spec: the Segment Rasterizer's draw operation with
the endpoint normalization (§4.2). -/
def drawSeg (img : Img) (x1 y1 x2 y2 : Int) (c : Pixel) : Img :=
  if x1 > x2 then drawCore img x2 y2 x1 y1 c else drawCore img x1 y1 x2 y2 c

/-- The Coordinate Path of a segment after the `x1 ≤ x2` normalization:
the sequence of coordinates traversed by the switch common to
`bdiff`/`bcopy`/the rasterizer. -/
def bresCore (x1 y1 x2 y2 : Int) : List (Int × Int) :=
  if x1 = x2 ∧ y1 = y2 then
    [(x1, y1)]
  else if y1 = y2 then
    bresStep 1 0 (x2 - x1).toNat x1 y1
  else if x1 = x2 then
    bresStep 0 1 (goAbs (y2 - y1)).toNat x1 (if y1 > y2 then y2 else y1)
  else if x2 - x1 = goAbs (y2 - y1) then
    (if y1 < y2 then bresStep 1 1 (x2 - x1).toNat x1 y1
     else bresStep 1 (-1) (x2 - x1).toNat x1 y1)
  else if x2 - x1 > goAbs (y2 - y1) then
    (if y1 < y2 then
       bresBres 1 0 0 1 (2 * goAbs (y2 - y1)) (2 * (x2 - x1)) (x2 - x1).toNat x1 y1 (x2 - x1)
     else
       bresBres 1 0 0 (-1) (2 * goAbs (y2 - y1)) (2 * (x2 - x1)) (x2 - x1).toNat x1 y1 (x2 - x1)) ++
      [(x2, y2)]
  else
    (if y1 < y2 then
       bresBres 0 1 1 0 (2 * (x2 - x1)) (2 * goAbs (y2 - y1)) (goAbs (y2 - y1)).toNat x1 y1 (goAbs (y2 - y1))
     else
       bresBres 0 (-1) 1 0 (2 * (x2 - x1)) (2 * goAbs (y2 - y1)) (goAbs (y2 - y1)).toNat x1 y1 (goAbs (y2 - y1))) ++
      [(x2, y2)]

/-- The Coordinate Path of a segment, with endpoint normalization. -/
def bresList (x1 y1 x2 y2 : Int) : List (Int × Int) :=
  if x1 > x2 then bresCore x2 y2 x1 y1 else bresCore x1 y1 x2 y2

/-! ## The Palette Builder (lines 310-324)

`sketch` scans the target row-major (`y` outer, `x` inner) and appends
every pixel to the palette; with `-p` (`palletize`) a pixel value is
appended only if it is not yet a key of `palettemap` (a set keyed by exact
channel equality, since `color.RGBA` values compare structurally). -/

/-- The pixels of an image in row-major scan order (`y` outer, `x` inner),
as read by the palette loops. -/
def scanPixels (img : Img) : List Pixel :=
  (List.range img.h).flatMap fun y => (List.range img.w).map fun x => img.pix x y

/-- The body of the palette loop (lines 314-321) for one pixel `p`; the
state is the pair (palette, keys of palettemap). -/
def palStep (palletize : Bool) (st : List Pixel × List Pixel) (p : Pixel) :
    List Pixel × List Pixel :=
  if palletize then
    if p ∈ st.2 then st else (st.1 ++ [p], st.2 ++ [p])
  else (st.1 ++ [p], st.2)

/-- The Palette Builder (lines 310-324). -/
def buildPalette (img : Img) (palletize : Bool) : List Pixel :=
  ((scanPixels img).foldl (palStep palletize) ([], [])).1

/-- Modelled from the spec: "a pixel value is appended only the first time
it is seen" (§4.1) — first-seen deduplication of a pixel sequence, with the
set of already-seen values as accumulator. -/
def dedupFS (seen : List Pixel) : List Pixel → List Pixel
  | [] => []
  | p :: rest => if p ∈ seen then dedupFS seen rest else p :: dedupFS (p :: seen) rest

/-! ## The Optimizer Loop (`sketch`, lines 297-379) -/

/-- `rand.Intn n` with raw entropy `r`: some value in `[0, n)` for
`n > 0` (here `r % n`, which ranges over every possible output as `r`
varies), `none` for `n ≤ 0` (Go: panic). -/
def randIntn (n : Int) (r : Nat) : Option Int :=
  if n ≤ 0 then none else some ((r : Int) % n)

/-- The solid background color `color.RGBA{0, 0, 0, 255}` (line 328). -/
def bgPixel : Pixel := ⟨0, 0, 0, 255⟩

/-- A canvas filled with the background color (lines 326-330). -/
def bgImg (w h : Nat) : Img := ⟨w, h, fun _ _ => bgPixel⟩

/-- The mutable state of the optimizer loop: `trial` is `img1`, `best` is
`img2`, `stati`/`statc` the interval counters, `incr` the incremental
snapshots written so far. -/
structure LoopSt where
  trial : Img
  best : Img
  stati : Nat
  statc : Nat
  incr : List Img

/-- The random endpoint generation of one iteration (lines 339-344): the
first endpoint is uniform inside the bounds; the second is the first
offset by `-lineLen/2 + rand.Intn(lineLen)` per axis (Go `/` truncates
toward zero, hence `Int.tdiv`), not clamped to the image.  Iteration `i`
consumes the raw entropy `ρ (5*i) .. ρ (5*i+4)` in the source's call
order. -/
def iterEndpoints (lineLen : Int) (w h : Nat) (ρ : Nat → Nat) (i : Nat) :
    Option (Int × Int × Int × Int) := do
  let x1 ← randIntn w (ρ (5 * i))
  let y1 ← randIntn h (ρ (5 * i + 1))
  let rx ← randIntn lineLen (ρ (5 * i + 2))
  let ry ← randIntn lineLen (ρ (5 * i + 3))
  pure (x1, y1, Int.tdiv (-lineLen) 2 + x1 + rx, Int.tdiv (-lineLen) 2 + y1 + ry)

/-- The Coordinate Path processed by iteration `i` (a function of the
configuration and the entropy stream alone). -/
def iterPath (lineLen : Int) (w h : Nat) (ρ : Nat → Nat) (i : Nat) : List (Int × Int) :=
  match iterEndpoints lineLen w h ρ i with
  | none => []
  | some (x1, y1, x2, y2) => bresList x1 y1 x2 y2

/-- The accept/reject resolution of lines 349-356: if the trial canvas
scores strictly lower than the best canvas along the path, commit trial's
path pixels into best (accept); otherwise commit best's path pixels back
into trial (reject).  Returns (new trial, new best, accepted?). -/
noncomputable def acceptReject (target trial best : Img) (x1 y1 x2 y2 : Int) :
    Img × Img × Bool :=
  if bdiff target trial x1 y1 x2 y2 < bdiff target best x1 y1 x2 y2 then
    (trial, bcopy best trial x1 y1 x2 y2, true)
  else
    (bcopy trial best x1 y1 x2 y2, best, false)

/-- The interval-gated side effects (lines 357-374), polled only every
50th iteration.  `saveDue i` models `saveInterval > 0 && dur >= save
interval` and `statDue i` models `dur >= statInterval` at iteration `i`
(wall-clock reads abstracted as oracles). -/
def statUpdate (saveDue statDue : Nat → Bool) (i : Nat) (s : LoopSt) : LoopSt :=
  if i % 50 = 0 then
    let s1 := if saveDue i then { s with incr := s.incr ++ [s.best] } else s
    if statDue i then { s1 with stati := 0, statc := 0 } else s1
  else s

/-- One iteration of the optimizer loop (lines 338-374): generate random
endpoints and a random palette color, rasterize into the trial canvas,
resolve accept/reject along the path, update the counters and the
interval-gated bookkeeping.  `none` models a Go panic (`rand.Intn` with a
non-positive argument, or indexing an empty palette). -/
noncomputable def iterBody (target : Img) (palette : List Pixel) (lineLen : Int)
    (ρ : Nat → Nat) (saveDue statDue : Nat → Bool) (i : Nat) (s : LoopSt) :
    Option LoopSt :=
  match iterEndpoints lineLen target.w target.h ρ i with
  | none => none
  | some (x1, y1, x2, y2) =>
    match randIntn palette.length (ρ (5 * i + 4)) with
    | none => none
    | some ci =>
      match palette.get? ci.toNat with
      | none => none
      | some clr =>
        let trial1 := drawSeg s.trial x1 y1 x2 y2 clr
        let r := acceptReject target trial1 s.best x1 y1 x2 y2
        some (statUpdate saveDue statDue i
          { trial := r.1, best := r.2.1, stati := s.stati + 1,
            statc := if r.2.2 then s.statc + 1 else s.statc, incr := s.incr })

/-- The loop guard `i < iterLimit || iterLimit < 0` (line 337). -/
def loopCond (i iterLimit : Int) : Bool :=
  decide (i < iterLimit) || decide (iterLimit < 0)

/-- Exactly `n` loop iterations starting at index `i`, threading failure
(the index of the iteration that panicked). -/
noncomputable def iterN (target : Img) (palette : List Pixel) (lineLen : Int)
    (ρ : Nat → Nat) (saveDue statDue : Nat → Bool) :
    Nat → Nat → LoopSt → Except Nat LoopSt
  | 0, _, s => .ok s
  | n + 1, i, s =>
      match iterBody target palette lineLen ρ saveDue statDue i s with
      | none => .error i
      | some s' => iterN target palette lineLen ρ saveDue statDue n (i + 1) s'

/-- The `for` loop of lines 337-375: guard `loopCond`, body `iterBody`.
`fuel` bounds how many steps are unfolded; for a negative `iterLimit` the
guard is permanently true and exhausting `fuel` models stopping the
still-running process externally. -/
noncomputable def runLoop (target : Img) (palette : List Pixel)
    (iterLimit lineLen : Int) (ρ : Nat → Nat) (saveDue statDue : Nat → Bool) :
    Nat → Nat → LoopSt → Except Nat LoopSt
  | 0, _, s => .ok s
  | fuel + 1, i, s =>
      if loopCond (i : Int) iterLimit then
        match iterBody target palette lineLen ρ saveDue statDue i s with
        | none => .error i
        | some s' =>
            runLoop target palette iterLimit lineLen ρ saveDue statDue fuel (i + 1) s'
      else .ok s

/-- The initial canvas state (lines 326-335): both buffers filled with the
solid background color. -/
def initSt (w h : Nat) : LoopSt := ⟨bgImg w h, bgImg w h, 0, 0, []⟩

/-- The `sketch` function for one frame (lines 297-379): build the
palette, initialize both canvases, run the loop, and on exit write the one
final frame snapshot of `img2` (line 377).  The decode-and-convert copy of
lines 301-308 is the identity here, since the model's images are already
8-bit RGBA.  Returns (incremental snapshots, final frame snapshots). -/
noncomputable def sketchRun (target : Img) (palletize : Bool)
    (iterLimit lineLen : Int) (ρ : Nat → Nat) (saveDue statDue : Nat → Bool)
    (fuel : Nat) : Except Nat (List Img × List Img) :=
  match runLoop target (buildPalette target palletize) iterLimit lineLen ρ saveDue statDue
      fuel 0 (initSt target.w target.h) with
  | .error i => .error i
  | .ok s => .ok (s.incr, [s.best])

/-- Modelled from the spec: "the Euclidean distance in 4-channel (R,G,B,A)
space between the corresponding pixels of the two images, each channel
distance computed as a signed difference then squared before the final
square root is taken on the summed squares per coordinate" (§4.3). -/
noncomputable def euclidDist (p q : Pixel) : ℝ :=
  Real.sqrt (((chan16 q.r - chan16 p.r) ^ 2 + (chan16 q.g - chan16 p.g) ^ 2 +
    (chan16 q.b - chan16 p.b) ^ 2 + (chan16 q.a - chan16 p.a) ^ 2 : Int) : ℝ)

/-! ## Concrete fixtures used by the witnesses -/

/-- A 2×2 test image with four distinct pixels. -/
def imgA : Img := ⟨2, 2, fun x y => ⟨x, y, 0, 255⟩⟩

/-- A 2×2 test image of one solid color. -/
def imgB : Img := ⟨2, 2, fun _ _ => ⟨9, 0, 0, 255⟩⟩

/-- A 1×1 all-zero image. -/
def tImg : Img := ⟨1, 1, fun _ _ => ⟨0, 0, 0, 0⟩⟩

/-- A 1×1 image whose pixel is at squared channel distance `1651225 = 1285²`
from the all-zero pixel. -/
def bImg : Img := ⟨1, 1, fun _ _ => ⟨3, 4, 0, 0⟩⟩

/-- A 1×1 solid test target. -/
def wTgt : Img := ⟨1, 1, fun _ _ => ⟨7, 7, 7, 7⟩⟩

/-- The empty (zero-pixel) image. -/
def emptyImg : Img := ⟨0, 0, fun _ _ => Pixel.zero⟩

/-- An all-zeros entropy stream. -/
def rho0 : Nat → Nat := fun _ => 0

/-- An interval oracle that never fires. -/
def never : Nat → Bool := fun _ => false

/-- The solid color of the 1×1 test target. -/
def p7 : Pixel := ⟨7, 7, 7, 7⟩

/-- The trial canvas after the witness iteration's draw. -/
def wTrial : Img := drawSeg (bgImg 1 1) 0 0 0 0 p7

/-- The loop state after one concrete (accepted) iteration on the 1×1 test
target. -/
def wS : LoopSt :=
  ⟨wTrial, bcopy (bgImg 1 1) wTrial 0 0 0 0, 1, 1, []⟩

/-! ## Basic image lemmas -/

@[simp] theorem setP_w (img : Img) (x y : Int) (c : Pixel) : (setP img x y c).w = img.w := by
  unfold setP; split <;> rfl

@[simp] theorem setP_h (img : Img) (x y : Int) (c : Pixel) : (setP img x y c).h = img.h := by
  unfold setP; split <;> rfl

theorem atP_out (img : Img) (x y : Int) (h : ¬ inB img.w img.h x y) :
    atP img x y = Pixel.zero := by
  unfold atP; rw [if_neg h]

theorem setP_out (img : Img) (x y : Int) (c : Pixel) (h : ¬ inB img.w img.h x y) :
    setP img x y c = img := by
  unfold setP; rw [if_neg h]

theorem atP_setP_ne (img : Img) (x y u v : Int) (c : Pixel) (huv : (u, v) ≠ (x, y)) :
    atP (setP img x y c) u v = atP img u v := by
  unfold setP
  by_cases hb : inB img.w img.h x y
  · rw [if_pos hb]
    unfold atP
    by_cases hu : inB img.w img.h u v
    · rw [if_pos hu, if_pos hu]
      show (if u.toNat = x.toNat ∧ v.toNat = y.toNat then c else img.pix u.toNat v.toNat) = _
      rw [if_neg]
      rintro ⟨h1, h2⟩
      apply huv
      obtain ⟨hx0, -, hy0, -⟩ := hb
      obtain ⟨hu0, -, hv0, -⟩ := hu
      have e1 : u = x := by
        rw [← Int.toNat_of_nonneg hu0, ← Int.toNat_of_nonneg hx0, h1]
      have e2 : v = y := by
        rw [← Int.toNat_of_nonneg hv0, ← Int.toNat_of_nonneg hy0, h2]
      rw [e1, e2]
    · rw [if_neg hu, if_neg hu]
  · rw [if_neg hb]

/-- Writing the source's own pixel at `(x, y)` makes the destination agree
with the source there, dimensions being equal (covers the out-of-bounds
case: both read as the zero pixel). -/
theorem atP_setP_src (img src : Img) (x y : Int) (hd : sameDims img src) :
    atP (setP img x y (atP src x y)) x y = atP src x y := by
  obtain ⟨hw, hh⟩ := hd
  unfold setP
  by_cases hb : inB img.w img.h x y
  · rw [if_pos hb]
    unfold atP
    rw [if_pos hb]
    show (if x.toNat = x.toNat ∧ y.toNat = y.toNat then _ else _) = _
    rw [if_pos ⟨rfl, rfl⟩]
  · rw [if_neg hb]
    rw [atP_out img x y hb, atP_out src x y (by rw [← hw, ← hh]; exact hb)]

theorem atP_setP_const (img : Img) (x y : Int) (c : Pixel) (hb : inB img.w img.h x y) :
    atP (setP img x y c) x y = c := by
  unfold setP
  rw [if_pos hb]
  unfold atP
  rw [if_pos hb]
  show (if x.toNat = x.toNat ∧ y.toNat = y.toNat then c else _) = c
  rw [if_pos ⟨rfl, rfl⟩]

/-! ## Loop lemmas: each traversal follows the coordinate lists -/

theorem sameDims_setP (img src : Img) (x y : Int) (c : Pixel) (hd : sameDims img src) :
    sameDims (setP img x y c) src := by
  obtain ⟨h1, h2⟩ := hd
  exact ⟨by rw [setP_w, h1], by rw [setP_h, h2]⟩

theorem bdiffStep_eq (a b : Img) (sx sy : Int) (n : Nat) :
    ∀ x y : Int, bdiffStep a b sx sy n x y =
      ((bresStep sx sy n x y).map (fun q => calcdiff a b q.1 q.2)).sum := by
  induction n with
  | zero => intro x y; simp [bdiffStep, bresStep]
  | succ n ih => intro x y; simp [bdiffStep, bresStep, ih]

theorem bdiffBres_eq (a b : Img) (ux uy cx cy d slope : Int) (n : Nat) :
    ∀ x y e : Int, bdiffBres a b ux uy cx cy d slope n x y e =
      ((bresBres ux uy cx cy d slope n x y e).map (fun q => calcdiff a b q.1 q.2)).sum := by
  induction n with
  | zero => intro x y e; simp [bdiffBres, bresBres]
  | succ n ih =>
      intro x y e
      by_cases h : e - d < 0 <;> simp [bdiffBres, bresBres, h, ih]

theorem bcopyStep_dims (src : Img) (sx sy : Int) (n : Nat) :
    ∀ (x y : Int) (img : Img), sameDims img src →
      sameDims (bcopyStep src sx sy n x y img) src := by
  induction n with
  | zero => intro x y img hd; exact sameDims_setP _ _ _ _ _ hd
  | succ n ih => intro x y img hd; exact ih _ _ _ (sameDims_setP _ _ _ _ _ hd)

theorem bcopyBres_dims (src : Img) (ux uy cx cy d slope : Int) (n : Nat) :
    ∀ (x y e : Int) (img : Img), sameDims img src →
      sameDims (bcopyBres src ux uy cx cy d slope n x y e img) src := by
  induction n with
  | zero => intro x y e img hd; exact hd
  | succ n ih =>
      intro x y e img hd
      unfold bcopyBres
      split
      · exact ih _ _ _ _ (sameDims_setP _ _ _ _ _ hd)
      · exact ih _ _ _ _ (sameDims_setP _ _ _ _ _ hd)

theorem bcopyStep_at (src : Img) (sx sy : Int) (n : Nat) :
    ∀ (x y : Int) (img : Img), sameDims img src → ∀ u v : Int,
      atP (bcopyStep src sx sy n x y img) u v =
        if (u, v) ∈ bresStep sx sy n x y then atP src u v else atP img u v := by
  induction n with
  | zero =>
      intro x y img hd u v
      simp only [bcopyStep, bresStep, List.mem_singleton]
      by_cases h : (u, v) = (x, y)
      · have h1 : u = x := congrArg Prod.fst h
        have h2 : v = y := congrArg Prod.snd h
        subst h1; subst h2
        rw [if_pos rfl]
        exact atP_setP_src img src u v hd
      · rw [if_neg h]
        exact atP_setP_ne img x y u v _ h
  | succ n ih =>
      intro x y img hd u v
      simp only [bcopyStep, bresStep, List.mem_cons]
      rw [ih (x + sx) (y + sy) (setP img x y (atP src x y)) (sameDims_setP _ _ _ _ _ hd) u v]
      by_cases h2 : (u, v) ∈ bresStep sx sy n (x + sx) (y + sy)
      · rw [if_pos h2, if_pos (Or.inr h2)]
      · rw [if_neg h2]
        by_cases h1 : (u, v) = (x, y)
        · rw [if_pos (Or.inl h1)]
          have e1 : u = x := congrArg Prod.fst h1
          have e2 : v = y := congrArg Prod.snd h1
          subst e1; subst e2
          exact atP_setP_src img src u v hd
        · rw [if_neg (by rintro (h | h); exact h1 h; exact h2 h)]
          exact atP_setP_ne img x y u v _ h1

theorem bcopyBres_at (src : Img) (ux uy cx cy d slope : Int) (n : Nat) :
    ∀ (x y e : Int) (img : Img), sameDims img src → ∀ u v : Int,
      atP (bcopyBres src ux uy cx cy d slope n x y e img) u v =
        if (u, v) ∈ bresBres ux uy cx cy d slope n x y e then atP src u v else atP img u v := by
  induction n with
  | zero => intro x y e img hd u v; simp [bcopyBres, bresBres]
  | succ n ih =>
      intro x y e img hd u v
      simp only [bcopyBres, bresBres, List.mem_cons]
      by_cases h : e - d < 0
      · rw [if_pos h, if_pos h,
          ih _ _ _ (setP img x y (atP src x y)) (sameDims_setP _ _ _ _ _ hd) u v]
        by_cases h2 : (u, v) ∈ bresBres ux uy cx cy d slope n (x + ux + cx) (y + uy + cy) (e - d + slope)
        · rw [if_pos h2, if_pos (Or.inr h2)]
        · rw [if_neg h2]
          by_cases h1 : (u, v) = (x, y)
          · rw [if_pos (Or.inl h1)]
            have e1 : u = x := congrArg Prod.fst h1
            have e2 : v = y := congrArg Prod.snd h1
            subst e1; subst e2
            exact atP_setP_src img src u v hd
          · rw [if_neg (by rintro (hx | hx); exact h1 hx; exact h2 hx)]
            exact atP_setP_ne img x y u v _ h1
      · rw [if_neg h, if_neg h,
          ih _ _ _ (setP img x y (atP src x y)) (sameDims_setP _ _ _ _ _ hd) u v]
        by_cases h2 : (u, v) ∈ bresBres ux uy cx cy d slope n (x + ux) (y + uy) (e - d)
        · rw [if_pos h2, if_pos (Or.inr h2)]
        · rw [if_neg h2]
          by_cases h1 : (u, v) = (x, y)
          · rw [if_pos (Or.inl h1)]
            have e1 : u = x := congrArg Prod.fst h1
            have e2 : v = y := congrArg Prod.snd h1
            subst e1; subst e2
            exact atP_setP_src img src u v hd
          · rw [if_neg (by rintro (hx | hx); exact h1 hx; exact h2 hx)]
            exact atP_setP_ne img x y u v _ h1

theorem drawStep_ne (c : Pixel) (sx sy : Int) (n : Nat) :
    ∀ (x y : Int) (img : Img) (u v : Int), (u, v) ∉ bresStep sx sy n x y →
      atP (drawStep c sx sy n x y img) u v = atP img u v := by
  induction n with
  | zero =>
      intro x y img u v h
      simp only [bresStep, List.mem_singleton] at h
      exact atP_setP_ne img x y u v c h
  | succ n ih =>
      intro x y img u v h
      simp only [bresStep, List.mem_cons, not_or] at h
      rw [show drawStep c sx sy (n + 1) x y img
            = drawStep c sx sy n (x + sx) (y + sy) (setP img x y c) from rfl,
        ih _ _ _ u v h.2]
      exact atP_setP_ne img x y u v c h.1

theorem drawBres_ne (c : Pixel) (ux uy cx cy d slope : Int) (n : Nat) :
    ∀ (x y e : Int) (img : Img) (u v : Int), (u, v) ∉ bresBres ux uy cx cy d slope n x y e →
      atP (drawBres c ux uy cx cy d slope n x y e img) u v = atP img u v := by
  induction n with
  | zero => intro x y e img u v h; rfl
  | succ n ih =>
      intro x y e img u v h
      simp only [bresBres, List.mem_cons, not_or] at h
      unfold drawBres
      by_cases he : e - d < 0
      · rw [if_pos he]
        rw [if_pos he] at h
        rw [ih _ _ _ _ u v h.2]
        exact atP_setP_ne img x y u v c h.1
      · rw [if_neg he]
        rw [if_neg he] at h
        rw [ih _ _ _ _ u v h.2]
        exact atP_setP_ne img x y u v c h.1

/-! ## Case analysis: the three operations against the Coordinate Path -/

theorem bcopyBres_end_at (src : Img) (ux uy cx cy d slope : Int) (n : Nat)
    (x y e ex ey : Int) (img : Img) (hd : sameDims img src) (u v : Int) :
    atP (setP (bcopyBres src ux uy cx cy d slope n x y e img) ex ey (atP src ex ey)) u v =
      if (u, v) ∈ bresBres ux uy cx cy d slope n x y e ++ [(ex, ey)] then atP src u v
      else atP img u v := by
  by_cases h2 : (u, v) = (ex, ey)
  · have e1 : u = ex := congrArg Prod.fst h2
    have e2 : v = ey := congrArg Prod.snd h2
    subst e1; subst e2
    rw [atP_setP_src _ src u v (bcopyBres_dims src ux uy cx cy d slope n x y e img hd)]
    rw [if_pos (List.mem_append.mpr (Or.inr (List.mem_singleton.mpr rfl)))]
  · rw [atP_setP_ne _ ex ey u v _ h2,
      bcopyBres_at src ux uy cx cy d slope n x y e img hd u v]
    by_cases hm : (u, v) ∈ bresBres ux uy cx cy d slope n x y e
    · rw [if_pos hm, if_pos (List.mem_append.mpr (Or.inl hm))]
    · rw [if_neg hm, if_neg]
      intro hc
      rcases List.mem_append.mp hc with hx | hx
      · exact hm hx
      · exact h2 (List.mem_singleton.mp hx)

/-- `bcopy`'s switch realizes exactly the Coordinate Path: each pixel of the
destination on the path is the source's pixel there, every other pixel is
untouched. -/
theorem bcopyCore_at (img src : Img) (x1 y1 x2 y2 : Int) (hd : sameDims img src) (u v : Int) :
    atP (bcopyCore img src x1 y1 x2 y2) u v =
      if (u, v) ∈ bresCore x1 y1 x2 y2 then atP src u v else atP img u v := by
  simp only [bcopyCore, bresCore]
  by_cases h1 : x1 = x2 ∧ y1 = y2
  · simp only [if_pos h1]
    exact bcopyStep_at src 1 0 0 x1 y1 img hd u v
  · simp only [if_neg h1]
    by_cases h2 : y1 = y2
    · simp only [if_pos h2]
      exact bcopyStep_at src 1 0 _ x1 y1 img hd u v
    · simp only [if_neg h2]
      by_cases h3 : x1 = x2
      · simp only [if_pos h3]
        by_cases h3b : y1 > y2
        · simp only [if_pos h3b]
          exact bcopyStep_at src 0 1 _ x1 y2 img hd u v
        · simp only [if_neg h3b]
          exact bcopyStep_at src 0 1 _ x1 y1 img hd u v
      · simp only [if_neg h3]
        by_cases h4 : x2 - x1 = goAbs (y2 - y1)
        · simp only [if_pos h4]
          by_cases h4b : y1 < y2
          · simp only [if_pos h4b]
            exact bcopyStep_at src 1 1 _ x1 y1 img hd u v
          · simp only [if_neg h4b]
            exact bcopyStep_at src 1 (-1) _ x1 y1 img hd u v
        · simp only [if_neg h4]
          by_cases h5 : x2 - x1 > goAbs (y2 - y1)
          · simp only [if_pos h5]
            by_cases h5b : y1 < y2
            · simp only [if_pos h5b]
              exact bcopyBres_end_at src _ _ _ _ _ _ _ x1 y1 _ x2 y2 img hd u v
            · simp only [if_neg h5b]
              exact bcopyBres_end_at src _ _ _ _ _ _ _ x1 y1 _ x2 y2 img hd u v
          · simp only [if_neg h5]
            by_cases h6b : y1 < y2
            · simp only [if_pos h6b]
              exact bcopyBres_end_at src _ _ _ _ _ _ _ x1 y1 _ x2 y2 img hd u v
            · simp only [if_neg h6b]
              exact bcopyBres_end_at src _ _ _ _ _ _ _ x1 y1 _ x2 y2 img hd u v

/-- `bdiff`'s switch sums `calcdiff` over exactly the Coordinate Path. -/
theorem bdiffCore_eq (a b : Img) (x1 y1 x2 y2 : Int) :
    bdiffCore a b x1 y1 x2 y2 =
      ((bresCore x1 y1 x2 y2).map (fun q => calcdiff a b q.1 q.2)).sum := by
  unfold bdiffCore bresCore
  split_ifs <;>
    simp [bdiffStep_eq, bdiffBres_eq, List.map_append, List.sum_append]

/-- The rasterizer's switch writes only on the Coordinate Path. -/
theorem drawCore_ne (img : Img) (x1 y1 x2 y2 : Int) (c : Pixel) (u v : Int)
    (h : (u, v) ∉ bresCore x1 y1 x2 y2) :
    atP (drawCore img x1 y1 x2 y2 c) u v = atP img u v := by
  unfold drawCore
  unfold bresCore at h
  split_ifs at h ⊢ <;>
    first
      | exact atP_setP_ne img x1 y1 u v c (by simpa using h)
      | exact drawStep_ne c _ _ _ _ _ img u v h
      | · simp only [List.mem_append, List.mem_singleton, not_or] at h
          rw [atP_setP_ne _ x2 y2 u v c h.2]
          exact drawBres_ne c _ _ _ _ _ _ _ _ _ _ img u v h.1

/-! ## Top-level characterizations (after endpoint normalization) -/

theorem bdiff_eq_sum (a b : Img) (x1 y1 x2 y2 : Int) :
    bdiff a b x1 y1 x2 y2 =
      ((bresList x1 y1 x2 y2).map (fun q => calcdiff a b q.1 q.2)).sum := by
  unfold bdiff bresList
  split_ifs
  · exact bdiffCore_eq a b x2 y2 x1 y1
  · exact bdiffCore_eq a b x1 y1 x2 y2

theorem bcopy_at (img src : Img) (x1 y1 x2 y2 : Int) (hd : sameDims img src) (u v : Int) :
    atP (bcopy img src x1 y1 x2 y2) u v =
      if (u, v) ∈ bresList x1 y1 x2 y2 then atP src u v else atP img u v := by
  unfold bcopy bresList
  by_cases hs : x1 > x2
  · simp only [if_pos hs]
    exact bcopyCore_at img src x2 y2 x1 y1 hd u v
  · simp only [if_neg hs]
    exact bcopyCore_at img src x1 y1 x2 y2 hd u v

theorem drawSeg_ne (img : Img) (x1 y1 x2 y2 : Int) (c : Pixel) (u v : Int)
    (h : (u, v) ∉ bresList x1 y1 x2 y2) :
    atP (drawSeg img x1 y1 x2 y2 c) u v = atP img u v := by
  unfold drawSeg
  unfold bresList at h
  by_cases hs : x1 > x2
  · rw [if_pos hs]
    rw [if_pos hs] at h
    exact drawCore_ne img x2 y2 x1 y1 c u v h
  · rw [if_neg hs]
    rw [if_neg hs] at h
    exact drawCore_ne img x1 y1 x2 y2 c u v h

theorem calcdiff_congr (a a' b b' : Img) (x y : Int)
    (ha : atP a x y = atP a' x y) (hb : atP b x y = atP b' x y) :
    calcdiff a b x y = calcdiff a' b' x y := by
  unfold calcdiff
  rw [ha, hb]

/-- `bdiff` reads no coordinate outside the Coordinate Path: it is
invariant under changing either image away from the path. -/
theorem bdiff_congr (a a' b b' : Img) (x1 y1 x2 y2 : Int)
    (h : ∀ q ∈ bresList x1 y1 x2 y2,
      atP a q.1 q.2 = atP a' q.1 q.2 ∧ atP b q.1 q.2 = atP b' q.1 q.2) :
    bdiff a b x1 y1 x2 y2 = bdiff a' b' x1 y1 x2 y2 := by
  have hm : (bresList x1 y1 x2 y2).map (fun q => calcdiff a b q.1 q.2) =
      (bresList x1 y1 x2 y2).map (fun q => calcdiff a' b' q.1 q.2) :=
    List.map_congr_left fun q hq =>
      calcdiff_congr a a' b b' q.1 q.2 (h q hq).1 (h q hq).2
  rw [bdiff_eq_sum, bdiff_eq_sum, hm]

/-! ## Palette lemmas -/

theorem dedupFS_congr (l : List Pixel) :
    ∀ s1 s2 : List Pixel, (∀ q, q ∈ s1 ↔ q ∈ s2) → dedupFS s1 l = dedupFS s2 l := by
  induction l with
  | nil => intro s1 s2 _; rfl
  | cons p rest ih =>
      intro s1 s2 hs
      simp only [dedupFS]
      by_cases hp : p ∈ s1
      · rw [if_pos hp, if_pos ((hs p).mp hp)]
        exact ih s1 s2 hs
      · rw [if_neg hp, if_neg (fun hc => hp ((hs p).mpr hc))]
        rw [ih (p :: s1) (p :: s2) (by intro q; simp [hs q])]

theorem pal_true_fold (l : List Pixel) :
    ∀ acc seen : List Pixel,
      (l.foldl (palStep true) (acc, seen)).1 = acc ++ dedupFS seen l := by
  induction l with
  | nil => intro acc seen; simp [dedupFS]
  | cons p rest ih =>
      intro acc seen
      simp only [List.foldl_cons, palStep, if_pos rfl, dedupFS]
      by_cases hp : p ∈ seen
      · rw [if_pos hp, if_pos hp]
        exact ih acc seen
      · rw [if_neg hp, if_neg hp]
        show (rest.foldl (palStep true) (acc ++ [p], seen ++ [p])).1 = _
        rw [ih (acc ++ [p]) (seen ++ [p]),
          dedupFS_congr rest (seen ++ [p]) (p :: seen) (by intro q; simp; tauto),
          List.append_assoc]
        rfl

theorem pal_false_fold (l : List Pixel) :
    ∀ acc seen : List Pixel, (l.foldl (palStep false) (acc, seen)).1 = acc ++ l := by
  induction l with
  | nil => intro acc seen; simp
  | cons p rest ih =>
      intro acc seen
      simp only [List.foldl_cons, palStep, if_neg Bool.false_ne_true]
      show (rest.foldl (palStep false) (acc ++ [p], seen)).1 = _
      rw [ih (acc ++ [p]) seen, List.append_assoc]
      rfl

theorem dedupFS_mem (l : List Pixel) :
    ∀ (seen : List Pixel) (q : Pixel), q ∈ dedupFS seen l → q ∈ l ∧ q ∉ seen := by
  induction l with
  | nil => intro seen q hq; cases hq
  | cons p rest ih =>
      intro seen q hq
      simp only [dedupFS] at hq
      by_cases hp : p ∈ seen
      · rw [if_pos hp] at hq
        obtain ⟨h1, h2⟩ := ih seen q hq
        exact ⟨List.mem_cons_of_mem p h1, h2⟩
      · rw [if_neg hp] at hq
        rcases List.mem_cons.mp hq with rfl | hq
        · exact ⟨List.mem_cons_self q rest, hp⟩
        · obtain ⟨h1, h2⟩ := ih (p :: seen) q hq
          simp only [List.mem_cons, not_or] at h2
          exact ⟨List.mem_cons_of_mem p h1, h2.2⟩

theorem dedupFS_nodup (l : List Pixel) : ∀ seen : List Pixel, (dedupFS seen l).Nodup := by
  induction l with
  | nil => intro seen; exact List.nodup_nil
  | cons p rest ih =>
      intro seen
      simp only [dedupFS]
      by_cases hp : p ∈ seen
      · rw [if_pos hp]; exact ih seen
      · rw [if_neg hp]
        refine List.nodup_cons.mpr ⟨?_, ih (p :: seen)⟩
        intro hc
        exact (dedupFS_mem rest (p :: seen) p hc).2 (List.mem_cons_self p seen)

theorem dedupFS_sub_mem (l : List Pixel) :
    ∀ (seen : List Pixel) (q : Pixel), q ∈ l → q ∉ seen → q ∈ dedupFS seen l := by
  induction l with
  | nil => intro seen q hq _; cases hq
  | cons p rest ih =>
      intro seen q hq hseen
      simp only [dedupFS]
      by_cases hp : p ∈ seen
      · rw [if_pos hp]
        rcases List.mem_cons.mp hq with rfl | hq
        · exact absurd hp hseen
        · exact ih seen q hq hseen
      · rw [if_neg hp]
        rcases List.mem_cons.mp hq with rfl | hq
        · exact List.mem_cons_self q _
        · by_cases hqp : q = p
          · subst hqp; exact List.mem_cons_self q _
          · exact List.mem_cons_of_mem p
              (ih (p :: seen) q hq (by simp [hqp, hseen]))

/-- The first-seen deduplication keeps exactly the distinct values. -/
theorem dedupFS_toFinset (l : List Pixel) :
    (dedupFS [] l).toFinset = l.toFinset := by
  apply Finset.ext
  intro q
  simp only [List.mem_toFinset]
  constructor
  · intro hq; exact (dedupFS_mem l [] q hq).1
  · intro hq; exact dedupFS_sub_mem l [] q hq (List.not_mem_nil q)

/-! ## Dimension preservation -/

theorem sameDims_refl (a : Img) : sameDims a a := ⟨rfl, rfl⟩

theorem sameDims_symm {a b : Img} (h : sameDims a b) : sameDims b a :=
  ⟨h.1.symm, h.2.symm⟩

theorem sameDims_trans {a b c : Img} (h1 : sameDims a b) (h2 : sameDims b c) :
    sameDims a c := ⟨h1.1.trans h2.1, h1.2.trans h2.2⟩

theorem setP_pres (img : Img) (x y : Int) (c : Pixel) : sameDims (setP img x y c) img :=
  ⟨setP_w img x y c, setP_h img x y c⟩

theorem bcopyStep_pres (src : Img) (sx sy : Int) (n : Nat) :
    ∀ (x y : Int) (img : Img), sameDims (bcopyStep src sx sy n x y img) img := by
  induction n with
  | zero => intro x y img; exact setP_pres img x y _
  | succ n ih =>
      intro x y img
      exact sameDims_trans (ih (x + sx) (y + sy) _) (setP_pres img x y _)

theorem bcopyBres_pres (src : Img) (ux uy cx cy d slope : Int) (n : Nat) :
    ∀ (x y e : Int) (img : Img),
      sameDims (bcopyBres src ux uy cx cy d slope n x y e img) img := by
  induction n with
  | zero => intro x y e img; exact sameDims_refl img
  | succ n ih =>
      intro x y e img
      unfold bcopyBres
      split
      · exact sameDims_trans (ih _ _ _ _) (setP_pres img x y _)
      · exact sameDims_trans (ih _ _ _ _) (setP_pres img x y _)

theorem drawStep_pres (c : Pixel) (sx sy : Int) (n : Nat) :
    ∀ (x y : Int) (img : Img), sameDims (drawStep c sx sy n x y img) img := by
  induction n with
  | zero => intro x y img; exact setP_pres img x y c
  | succ n ih =>
      intro x y img
      exact sameDims_trans (ih (x + sx) (y + sy) _) (setP_pres img x y c)

theorem drawBres_pres (c : Pixel) (ux uy cx cy d slope : Int) (n : Nat) :
    ∀ (x y e : Int) (img : Img),
      sameDims (drawBres c ux uy cx cy d slope n x y e img) img := by
  induction n with
  | zero => intro x y e img; exact sameDims_refl img
  | succ n ih =>
      intro x y e img
      unfold drawBres
      split
      · exact sameDims_trans (ih _ _ _ _) (setP_pres img x y c)
      · exact sameDims_trans (ih _ _ _ _) (setP_pres img x y c)

theorem bcopyCore_pres (img src : Img) (x1 y1 x2 y2 : Int) :
    sameDims (bcopyCore img src x1 y1 x2 y2) img := by
  unfold bcopyCore
  split_ifs <;>
    first
      | exact setP_pres img x1 y1 _
      | exact bcopyStep_pres src _ _ _ _ _ img
      | exact sameDims_trans (setP_pres _ x2 y2 _) (bcopyBres_pres src _ _ _ _ _ _ _ _ _ _ img)

theorem bcopy_pres (img src : Img) (x1 y1 x2 y2 : Int) :
    sameDims (bcopy img src x1 y1 x2 y2) img := by
  unfold bcopy
  split_ifs
  · exact bcopyCore_pres img src x2 y2 x1 y1
  · exact bcopyCore_pres img src x1 y1 x2 y2

theorem drawCore_pres (img : Img) (x1 y1 x2 y2 : Int) (c : Pixel) :
    sameDims (drawCore img x1 y1 x2 y2 c) img := by
  unfold drawCore
  split_ifs <;>
    first
      | exact setP_pres img x1 y1 c
      | exact drawStep_pres c _ _ _ _ _ img
      | exact sameDims_trans (setP_pres _ x2 y2 c) (drawBres_pres c _ _ _ _ _ _ _ _ _ _ img)

theorem drawSeg_pres (img : Img) (x1 y1 x2 y2 : Int) (c : Pixel) :
    sameDims (drawSeg img x1 y1 x2 y2 c) img := by
  unfold drawSeg
  split_ifs
  · exact drawCore_pres img x2 y2 x1 y1 c
  · exact drawCore_pres img x1 y1 x2 y2 c

/-! ## Bridge lemmas for the loop -/

/-- Committing `trial`'s path pixels into `best` makes `best` score along
the path exactly as `trial` does: term by term the summed per-pixel
distances coincide. -/
theorem bdiff_bcopy_eq (target best trial : Img) (x1 y1 x2 y2 : Int)
    (hd : sameDims best trial) :
    bdiff target (bcopy best trial x1 y1 x2 y2) x1 y1 x2 y2 =
      bdiff target trial x1 y1 x2 y2 := by
  apply bdiff_congr
  intro q hq
  refine ⟨rfl, ?_⟩
  rw [bcopy_at best trial x1 y1 x2 y2 hd q.1 q.2, if_pos (by rwa [Prod.mk.eta])]

@[simp] theorem statUpdate_trial (sd st : Nat → Bool) (i : Nat) (s : LoopSt) :
    (statUpdate sd st i s).trial = s.trial := by
  unfold statUpdate; split_ifs <;> rfl

@[simp] theorem statUpdate_best (sd st : Nat → Bool) (i : Nat) (s : LoopSt) :
    (statUpdate sd st i s).best = s.best := by
  unfold statUpdate; split_ifs <;> rfl

theorem randIntn_eq (n : Int) (r : Nat) (h : 0 < n) :
    randIntn n r = some ((r : Int) % n) := by
  unfold randIntn; rw [if_neg (not_le.mpr h)]

theorem iterEndpoints_some (lineLen : Int) (w h : Nat) (ρ : Nat → Nat) (i : Nat)
    (hw : 0 < w) (hh : 0 < h) (hl : 0 < lineLen) :
    iterEndpoints lineLen w h ρ i =
      some ((ρ (5 * i) : Int) % w, (ρ (5 * i + 1) : Int) % h,
        Int.tdiv (-lineLen) 2 + (ρ (5 * i) : Int) % w + (ρ (5 * i + 2) : Int) % lineLen,
        Int.tdiv (-lineLen) 2 + (ρ (5 * i + 1) : Int) % h + (ρ (5 * i + 3) : Int) % lineLen) := by
  have hwi : (0 : Int) < w := by exact_mod_cast hw
  have hhi : (0 : Int) < h := by exact_mod_cast hh
  unfold iterEndpoints
  rw [randIntn_eq _ _ hwi, randIntn_eq _ _ hhi, randIntn_eq _ _ hl, randIntn_eq _ _ hl]
  rfl

/-- Under a valid configuration every iteration step succeeds, regardless
of where the (possibly out-of-bounds) endpoints land. -/
theorem iterBody_total (target : Img) (palette : List Pixel) (lineLen : Int)
    (ρ : Nat → Nat) (sd st : Nat → Bool) (i : Nat) (s : LoopSt)
    (hw : 0 < target.w) (hh : 0 < target.h) (hl : 0 < lineLen) (hp : palette ≠ []) :
    ∃ s', iterBody target palette lineLen ρ sd st i s = some s' := by
  have hlen : (0 : Int) < palette.length := by
    exact_mod_cast List.length_pos.mpr hp
  have hci := randIntn_eq (palette.length : Int) (ρ (5 * i + 4)) hlen
  have h0 : 0 ≤ (ρ (5 * i + 4) : Int) % palette.length :=
    Int.emod_nonneg _ (ne_of_gt hlen)
  have h1 : (ρ (5 * i + 4) : Int) % palette.length < palette.length :=
    Int.emod_lt_of_pos _ hlen
  have hlt : ((ρ (5 * i + 4) : Int) % palette.length).toNat < palette.length := by
    omega
  unfold iterBody
  simp only [iterEndpoints_some lineLen target.w target.h ρ i hw hh hl, hci,
    List.get?_eq_get hlt]
  exact ⟨_, rfl⟩

theorem iterBody_inv (target : Img) (palette : List Pixel) (lineLen : Int)
    (ρ : Nat → Nat) (sd st : Nat → Bool) (i : Nat) (s s' : LoopSt)
    (hd : sameDims s.trial s.best)
    (hinv : ∀ u v : Int, atP s.trial u v = atP s.best u v)
    (hstep : iterBody target palette lineLen ρ sd st i s = some s') :
    (∀ u v : Int, atP s'.trial u v = atP s'.best u v) ∧ sameDims s'.trial s'.best := by
  unfold iterBody at hstep
  split at hstep
  · cases hstep
  split at hstep
  · cases hstep
  split at hstep
  · cases hstep
  rename_i o1 x1 y1 x2 y2 hE o2 ci hC o3 clr hG
  simp only [Option.some_inj] at hstep
  subst hstep
  have hd1 : sameDims (drawSeg s.trial x1 y1 x2 y2 clr) s.best :=
    sameDims_trans (drawSeg_pres s.trial x1 y1 x2 y2 clr) hd
  simp only [statUpdate_trial, statUpdate_best]
  by_cases hlt : bdiff target (drawSeg s.trial x1 y1 x2 y2 clr) x1 y1 x2 y2 <
      bdiff target s.best x1 y1 x2 y2
  · simp only [acceptReject, if_pos hlt]
    constructor
    · intro u v
      rw [bcopy_at s.best (drawSeg s.trial x1 y1 x2 y2 clr) x1 y1 x2 y2
        (sameDims_symm hd1) u v]
      by_cases hm : (u, v) ∈ bresList x1 y1 x2 y2
      · rw [if_pos hm]
      · rw [if_neg hm, drawSeg_ne s.trial x1 y1 x2 y2 clr u v hm]
        exact hinv u v
    · exact sameDims_trans hd1
        (sameDims_symm (bcopy_pres s.best (drawSeg s.trial x1 y1 x2 y2 clr) x1 y1 x2 y2))
  · simp only [acceptReject, if_neg hlt]
    constructor
    · intro u v
      rw [bcopy_at (drawSeg s.trial x1 y1 x2 y2 clr) s.best x1 y1 x2 y2 hd1 u v]
      by_cases hm : (u, v) ∈ bresList x1 y1 x2 y2
      · rw [if_pos hm]
      · rw [if_neg hm, drawSeg_ne s.trial x1 y1 x2 y2 clr u v hm]
        exact hinv u v
    · exact sameDims_trans
        (bcopy_pres (drawSeg s.trial x1 y1 x2 y2 clr) s.best x1 y1 x2 y2) hd1

theorem iterN_inv (target : Img) (palette : List Pixel) (lineLen : Int)
    (ρ : Nat → Nat) (sd st : Nat → Bool) (n : Nat) :
    ∀ (i : Nat) (s s' : LoopSt), sameDims s.trial s.best →
      (∀ u v : Int, atP s.trial u v = atP s.best u v) →
      iterN target palette lineLen ρ sd st n i s = .ok s' →
      (∀ u v : Int, atP s'.trial u v = atP s'.best u v) ∧ sameDims s'.trial s'.best := by
  induction n with
  | zero =>
      intro i s s' hd hinv hrun
      cases hrun
      exact ⟨hinv, hd⟩
  | succ n ih =>
      intro i s s' hd hinv hrun
      unfold iterN at hrun
      rcases hB : iterBody target palette lineLen ρ sd st i s with _ | s1 <;>
        rw [hB] at hrun
      · cases hrun
      · obtain ⟨h1, h2⟩ := iterBody_inv target palette lineLen ρ sd st i s s1 hd hinv hB
        exact ih (i + 1) s1 s' h2 h1 hrun

/-! ## Loop-count lemmas -/

theorem loopCond_neg (i l : Int) (hl : l < 0) : loopCond i l = true := by
  unfold loopCond
  simp [hl]

theorem loopCond_true_iff (i l : Int) (hl : 0 ≤ l) : loopCond i l = true ↔ i < l := by
  unfold loopCond
  simp [not_lt.mpr hl]

/-- With a non-negative budget `l` and enough fuel, the guarded loop
performs exactly the remaining `k = l - i` iterations: it coincides with
`iterN k`. -/
theorem runLoop_eq_iterN (target : Img) (palette : List Pixel) (l lineLen : Int)
    (ρ : Nat → Nat) (sd st : Nat → Bool) (hl : 0 ≤ l) (k : Nat) :
    ∀ (fuel i : Nat) (s : LoopSt), i + k = l.toNat → k ≤ fuel →
      runLoop target palette l lineLen ρ sd st fuel i s =
        iterN target palette lineLen ρ sd st k i s := by
  induction k with
  | zero =>
      intro fuel i s hik hf
      have hi : (i : Int) = l := by omega
      cases fuel with
      | zero => rfl
      | succ f =>
          unfold runLoop
          rw [if_neg]
          · rfl
          · rw [loopCond_true_iff _ _ hl, hi]
            exact lt_irrefl l
  | succ k ih =>
      intro fuel i s hik hf
      obtain ⟨f, rfl⟩ : ∃ f, fuel = f + 1 := ⟨fuel - 1, by omega⟩
      have hg : loopCond (i : Int) l = true := by
        rw [loopCond_true_iff _ _ hl]
        omega
      unfold runLoop iterN
      rw [if_pos hg]
      rcases hB : iterBody target palette lineLen ρ sd st i s with _ | s1
      · rfl
      · exact ih f (i + 1) s1 (by omega) (by omega)

/-- With iteration budget `0` the loop exits before its first iteration:
the canvas state is returned untouched. -/
theorem runLoop_budget_zero (target : Img) (palette : List Pixel) (lineLen : Int)
    (ρ : Nat → Nat) (sd st : Nat → Bool) (fuel : Nat) (s : LoopSt) :
    runLoop target palette 0 lineLen ρ sd st fuel 0 s = .ok s :=
  runLoop_eq_iterN target palette 0 lineLen ρ sd st le_rfl 0 fuel 0 s rfl (Nat.zero_le _)

/-! ## Palette emptiness -/

theorem scanPixels_mem (img : Img) (hw : 0 < img.w) (hh : 0 < img.h) :
    img.pix 0 0 ∈ scanPixels img := by
  unfold scanPixels
  exact List.mem_flatMap.mpr
    ⟨0, List.mem_range.mpr hh, List.mem_map.mpr ⟨0, List.mem_range.mpr hw, rfl⟩⟩

theorem scanPixels_nil_iff (img : Img) :
    scanPixels img = [] ↔ img.w = 0 ∨ img.h = 0 := by
  constructor
  · intro hnil
    by_contra hc
    push_neg at hc
    have := scanPixels_mem img (Nat.pos_of_ne_zero hc.1) (Nat.pos_of_ne_zero hc.2)
    rw [hnil] at this
    cases this
  · rintro (hw | hh) <;> unfold scanPixels
    · rw [hw]
      simp
    · rw [hh]
      simp

theorem dedupFS_nil_iff (l : List Pixel) : dedupFS [] l = [] ↔ l = [] := by
  constructor
  · intro hnil
    cases l with
    | nil => rfl
    | cons p rest =>
        exfalso
        have hp : p ∈ dedupFS [] (p :: rest) :=
          dedupFS_sub_mem (p :: rest) [] p (List.mem_cons_self p rest) (List.not_mem_nil p)
        rw [hnil] at hp
        cases hp
  · intro h
    rw [h]
    rfl

/-- The Palette Builder yields an empty palette exactly when the target
image has zero pixels, in either deduplication mode. -/
theorem buildPalette_nil_iff (img : Img) (palletize : Bool) :
    buildPalette img palletize = [] ↔ (img.w = 0 ∨ img.h = 0) := by
  cases palletize
  · unfold buildPalette
    rw [pal_false_fold (scanPixels img) [] []]
    simpa using scanPixels_nil_iff img
  · unfold buildPalette
    rw [pal_true_fold (scanPixels img) [] []]
    simp only [List.nil_append]
    rw [dedupFS_nil_iff]
    exact scanPixels_nil_iff img

/-! ## Difference score: zero identity and non-negativity -/

theorem calcdiff_self (a : Img) (x y : Int) : calcdiff a a x y = 0 := by
  unfold calcdiff
  have hz : sqdist (atP a x y) (atP a x y) = 0 := by
    unfold sqdist
    ring
  rw [hz]
  simp

theorem bdiff_self (a : Img) (x1 y1 x2 y2 : Int) : bdiff a a x1 y1 x2 y2 = 0 := by
  rw [bdiff_eq_sum]
  apply List.sum_eq_zero
  intro x hx
  obtain ⟨q, hq, rfl⟩ := List.mem_map.mp hx
  exact calcdiff_self a q.1 q.2

theorem bdiff_nonneg (a b : Img) (x1 y1 x2 y2 : Int) : 0 ≤ bdiff a b x1 y1 x2 y2 := by
  rw [bdiff_eq_sum]
  apply List.sum_nonneg
  intro x hx
  obtain ⟨q, hq, rfl⟩ := List.mem_map.mp hx
  exact Real.sqrt_nonneg _

/-- A degenerate segment scores a single pixel. -/
theorem bdiff_point (a b : Img) (x y : Int) :
    bdiff a b x y x y = Real.sqrt ((sqdist (atP a x y) (atP b x y) : Int) : ℝ) := by
  unfold bdiff
  rw [if_neg (lt_irrefl x)]
  unfold bdiffCore
  rw [if_pos ⟨rfl, rfl⟩]
  rfl

/-! ## The claims -/

/-- C1: For every iteration of the optimizer loop, given target image, trial
buffer and best buffer: if the difference score of (target, trial) over the
segment's path is strictly lower than the difference score of (target, best)
over that path, the trial buffer's pixels along the path are committed into
the best buffer; otherwise (score equal or higher) the best buffer's pixels
along the path are committed back into the trial buffer.  Consequently,
after an accepted iteration the score of (target, best) over that path
strictly decreases, and after a rejected iteration the best buffer is
pixel-identical to its pre-iteration state. -/
theorem C1_accept_reject (target trial best : Img) (x1 y1 x2 y2 : Int)
    (hd : sameDims best trial) :
    (bdiff target trial x1 y1 x2 y2 < bdiff target best x1 y1 x2 y2 →
      acceptReject target trial best x1 y1 x2 y2 =
        (trial, bcopy best trial x1 y1 x2 y2, true) ∧
      bdiff target (acceptReject target trial best x1 y1 x2 y2).2.1 x1 y1 x2 y2 <
        bdiff target best x1 y1 x2 y2) ∧
    (¬ bdiff target trial x1 y1 x2 y2 < bdiff target best x1 y1 x2 y2 →
      acceptReject target trial best x1 y1 x2 y2 =
        (bcopy trial best x1 y1 x2 y2, best, false) ∧
      ∀ u v : Int,
        atP (acceptReject target trial best x1 y1 x2 y2).2.1 u v = atP best u v) := by
  constructor
  · intro hlt
    have he : acceptReject target trial best x1 y1 x2 y2 =
        (trial, bcopy best trial x1 y1 x2 y2, true) := by
      unfold acceptReject
      rw [if_pos hlt]
    refine ⟨he, ?_⟩
    rw [he]
    show bdiff target (bcopy best trial x1 y1 x2 y2) x1 y1 x2 y2 < _
    rw [bdiff_bcopy_eq target best trial x1 y1 x2 y2 hd]
    exact hlt
  · intro hge
    have he : acceptReject target trial best x1 y1 x2 y2 =
        (bcopy trial best x1 y1 x2 y2, best, false) := by
      unfold acceptReject
      rw [if_neg hge]
    refine ⟨he, ?_⟩
    rw [he]
    intro u v
    rfl

/-- C1 witness: with a 1×1 target equal to the trial and a best buffer at
positive distance, the accept branch fires: the commit is into `best` and
the best score strictly decreases (from `1285` to `0`). -/
theorem C1_accept_reject_witness :
    acceptReject tImg tImg bImg 0 0 0 0 = (tImg, bcopy bImg tImg 0 0 0 0, true) ∧
    bdiff tImg (acceptReject tImg tImg bImg 0 0 0 0).2.1 0 0 0 0 <
      bdiff tImg bImg 0 0 0 0 := by
  have hlt : bdiff tImg tImg 0 0 0 0 < bdiff tImg bImg 0 0 0 0 := by
    rw [bdiff_self, bdiff_point]
    apply Real.sqrt_pos.mpr
    have hs : sqdist (atP tImg 0 0) (atP bImg 0 0) = 1651225 := by decide
    rw [hs]
    norm_num
  exact (C1_accept_reject tImg tImg bImg 0 0 0 0 ⟨rfl, rfl⟩).1 hlt

/-- C2: For every pair of equally-sized images and every segment's
coordinate path, the difference evaluator returns the sum, over the
coordinates of the path, of the per-pixel Euclidean distance in 4-channel
(R,G,B,A) space — each channel difference squared, the four squares summed,
and the square root taken per coordinate before summing across the path.
It is a pure, deterministic function of the two images and the path, and
reads no coordinate outside the supplied path. -/
theorem C2_difference_evaluator :
    (∀ (a b : Img) (x1 y1 x2 y2 : Int),
      bdiff a b x1 y1 x2 y2 =
        ((bresList x1 y1 x2 y2).map fun q =>
          euclidDist (atP a q.1 q.2) (atP b q.1 q.2)).sum) ∧
    (∀ (a a' b b' : Img) (x1 y1 x2 y2 : Int),
      (∀ q ∈ bresList x1 y1 x2 y2,
        atP a q.1 q.2 = atP a' q.1 q.2 ∧ atP b q.1 q.2 = atP b' q.1 q.2) →
      bdiff a b x1 y1 x2 y2 = bdiff a' b' x1 y1 x2 y2) := by
  constructor
  · intro a b x1 y1 x2 y2
    rw [bdiff_eq_sum]
    rfl
  · intro a a' b b' x1 y1 x2 y2 hagree
    exact bdiff_congr a a' b b' x1 y1 x2 y2 hagree

/-- C4: For every destination buffer, source buffer and segment: after
`commit(path, from, to)` (`bcopy(to, from, ...)`), every pixel of the
destination outside the segment's coordinate path is unchanged, and every
pixel of the destination on the path equals the corresponding pixel of the
source; no pixel outside the path is read or written. -/
theorem C4_commit_locality (img src : Img) (x1 y1 x2 y2 : Int)
    (hd : sameDims img src) :
    (∀ u v : Int, (u, v) ∉ bresList x1 y1 x2 y2 →
      atP (bcopy img src x1 y1 x2 y2) u v = atP img u v) ∧
    (∀ u v : Int, (u, v) ∈ bresList x1 y1 x2 y2 →
      atP (bcopy img src x1 y1 x2 y2) u v = atP src u v) ∧
    (∀ src' : Img, sameDims img src' →
      (∀ q ∈ bresList x1 y1 x2 y2, atP src q.1 q.2 = atP src' q.1 q.2) →
      ∀ u v : Int,
        atP (bcopy img src x1 y1 x2 y2) u v = atP (bcopy img src' x1 y1 x2 y2) u v) := by
  refine ⟨?_, ?_, ?_⟩
  · intro u v hm
    rw [bcopy_at img src x1 y1 x2 y2 hd u v, if_neg hm]
  · intro u v hm
    rw [bcopy_at img src x1 y1 x2 y2 hd u v, if_pos hm]
  · intro src' hd' hagree u v
    rw [bcopy_at img src x1 y1 x2 y2 hd u v, bcopy_at img src' x1 y1 x2 y2 hd' u v]
    by_cases hm : (u, v) ∈ bresList x1 y1 x2 y2
    · rw [if_pos hm, if_pos hm]
      exact hagree (u, v) hm
    · rw [if_neg hm, if_neg hm]

/-- C4 witness: on the degenerate segment `(0,0)-(0,0)` of two 2×2 buffers,
the pixel off the path is untouched, the pixel on the path equals the
source, and the commit ignores the source away from the path. -/
theorem C4_commit_locality_witness :
    atP (bcopy imgB imgA 0 0 0 0) 1 1 = atP imgB 1 1 ∧
    atP (bcopy imgB imgA 0 0 0 0) 0 0 = atP imgA 0 0 ∧
    atP (bcopy imgB imgA 0 0 0 0) 0 0 = atP (bcopy imgB imgA 0 0 0 0) 0 0 :=
  ⟨(C4_commit_locality imgB imgA 0 0 0 0 ⟨rfl, rfl⟩).1 1 1 (by decide),
   (C4_commit_locality imgB imgA 0 0 0 0 ⟨rfl, rfl⟩).2.1 0 0 (by decide),
   (C4_commit_locality imgB imgA 0 0 0 0 ⟨rfl, rfl⟩).2.2 imgA ⟨rfl, rfl⟩
     (fun _ _ => rfl) 0 0⟩

/-- C5: For every image A and every segment's path within bounds,
`difference(A, A, path)` is exactly 0; and for every pair of images and
every path, the difference score is never negative (shown for every path,
in or out of bounds). -/
theorem C5_zero_identity_nonneg :
    (∀ (a : Img) (x1 y1 x2 y2 : Int), bdiff a a x1 y1 x2 y2 = 0) ∧
    (∀ (a b : Img) (x1 y1 x2 y2 : Int), 0 ≤ bdiff a b x1 y1 x2 y2) :=
  ⟨bdiff_self, bdiff_nonneg⟩

/-- C6: With deduplication enabled, the palette built from a target image
contains no two pixel-identical entries, its length equals the number of
distinct pixel values in the target image, and its entries appear in
first-seen order under a row-major scan; with deduplication disabled, every
pixel of the image (including repeats) is appended in row-major order. -/
theorem C6_palette (img : Img) :
    (buildPalette img true).Nodup ∧
    (buildPalette img true).length = (scanPixels img).toFinset.card ∧
    buildPalette img true = dedupFS [] (scanPixels img) ∧
    buildPalette img false = scanPixels img := by
  have he : buildPalette img true = dedupFS [] (scanPixels img) := by
    unfold buildPalette
    rw [pal_true_fold (scanPixels img) [] []]
    simp
  have hf : buildPalette img false = scanPixels img := by
    unfold buildPalette
    rw [pal_false_fold (scanPixels img) [] []]
    simp
  refine ⟨?_, ?_, he, hf⟩
  · rw [he]
    exact dedupFS_nodup _ []
  · rw [he, ← dedupFS_toFinset (scanPixels img),
      List.toFinset_card_of_nodup (dedupFS_nodup _ [])]

/-- C9: For every pair of endpoints, the difference evaluator (`bdiff`) and
the commit operation (`bcopy`) traverse exactly the same coordinate
sequence `bresList`: both normalize endpoint order the same way (lower-x
first, lower-y first for vertical segments) and use identical branch
structure and error-accumulator stepping, so the set of coordinates that is
scored is precisely the set of coordinates that a subsequent commit reads
and writes. -/
theorem C9_same_traversal :
    (∀ (a b : Img) (x1 y1 x2 y2 : Int),
      bdiff a b x1 y1 x2 y2 =
        ((bresList x1 y1 x2 y2).map fun q => calcdiff a b q.1 q.2).sum) ∧
    (∀ (img src : Img) (x1 y1 x2 y2 : Int), sameDims img src → ∀ u v : Int,
      atP (bcopy img src x1 y1 x2 y2) u v =
        if (u, v) ∈ bresList x1 y1 x2 y2 then atP src u v else atP img u v) :=
  ⟨bdiff_eq_sum, fun img src x1 y1 x2 y2 hd u v => bcopy_at img src x1 y1 x2 y2 hd u v⟩

/-- C3: At every iteration boundary of the optimizer loop (after
initialization and after each accept/reject resolution), the trial buffer
and the best buffer are pixel-identical outside the most recently processed
coordinate path; they may differ only along that path and only between the
trial draw and the accept/reject commit.  (The path drawn into trial by the
rasterizer is covered by the path traversed by the commit operation: both
are `bresList` of the iteration's endpoints.) -/
theorem C3_boundary_invariant (target : Img) (palette : List Pixel) (lineLen : Int)
    (ρ : Nat → Nat) (sd st : Nat → Bool) (n : Nat) (s' : LoopSt)
    (hrun : iterN target palette lineLen ρ sd st (n + 1) 0 (initSt target.w target.h) =
      .ok s') :
    (∀ u v : Int,
      atP (initSt target.w target.h).trial u v = atP (initSt target.w target.h).best u v) ∧
    (∀ u v : Int, (u, v) ∉ iterPath lineLen target.w target.h ρ n →
      atP s'.trial u v = atP s'.best u v) := by
  refine ⟨fun u v => rfl, fun u v _ => ?_⟩
  exact (iterN_inv target palette lineLen ρ sd st (n + 1) 0 _ s'
    (sameDims_refl _) (fun _ _ => rfl) hrun).1 u v

theorem wS_accept :
    bdiff wTgt wTrial 0 0 0 0 < bdiff wTgt (bgImg 1 1) 0 0 0 0 := by
  have h0 : sqdist (atP wTgt 0 0) (atP wTrial 0 0) = 0 := by decide
  have hpos : (0 : Int) < sqdist (atP wTgt 0 0) (atP (bgImg 1 1) 0 0) := by decide
  rw [bdiff_point, bdiff_point, h0]
  have hz : Real.sqrt (((0 : Int) : ℝ)) = 0 := by simp
  rw [hz]
  exact Real.sqrt_pos.mpr (by exact_mod_cast hpos)

theorem wS_run :
    iterN wTgt [p7] 1 rho0 never never 1 0 (initSt 1 1) = .ok wS := by
  have hred : iterBody wTgt [p7] 1 rho0 never never 0 (initSt 1 1) =
      some (statUpdate never never 0
        { trial := (acceptReject wTgt wTrial (bgImg 1 1) 0 0 0 0).1,
          best := (acceptReject wTgt wTrial (bgImg 1 1) 0 0 0 0).2.1,
          stati := 1,
          statc :=
            if (acceptReject wTgt wTrial (bgImg 1 1) 0 0 0 0).2.2 then 1 else 0,
          incr := [] }) := rfl
  have hAR : acceptReject wTgt wTrial (bgImg 1 1) 0 0 0 0 =
      (wTrial, bcopy (bgImg 1 1) wTrial 0 0 0 0, true) := by
    unfold acceptReject
    rw [if_pos wS_accept]
  unfold iterN
  rw [hred, hAR]
  rfl

/-- C3 witness: one concrete accepted iteration on the 1×1 target; the
boundary invariant holds for that run. -/
theorem C3_boundary_invariant_witness :
    (∀ u v : Int,
      atP (initSt wTgt.w wTgt.h).trial u v = atP (initSt wTgt.w wTgt.h).best u v) ∧
    (∀ u v : Int, (u, v) ∉ iterPath 1 wTgt.w wTgt.h rho0 0 →
      atP wS.trial u v = atP wS.best u v) :=
  C3_boundary_invariant wTgt [p7] 1 rho0 never never 0 wS wS_run

/-- C7: the claim says the palette builder fails only on a zero-pixel
target, and that in that case the optimizer refuses to start, rejecting the
empty-palette condition before the iteration loop begins.  The code has no
pre-loop check: on the empty image the run enters the loop and fails inside
iteration 0 (Go: `rand.Intn(0)` panics), as this evaluation shows —
`sketchRun` returns the error attributed to iteration 0 rather than any
pre-loop rejection (the model has no pre-loop failure path at all, mirroring
lines 310-337). -/
theorem C7_empty_image_run :
    buildPalette emptyImg true = [] ∧
    buildPalette emptyImg false = [] ∧
    buildPalette wTgt false ≠ [] ∧
    sketchRun emptyImg false 1 40 rho0 never never 1 = .error 0 := by
  refine ⟨rfl, rfl, by decide, ?_⟩
  rfl

/-- C8: For every non-negative iteration budget n, the optimizer loop
performs exactly n iterations and then terminates with one final snapshot
of the best buffer; for every negative budget the loop guard never becomes
false, so it never terminates on its own.  With budget 0 the best buffer is
left unchanged from its initial solid-background fill and exactly one final
snapshot of that unmodified background is emitted. -/
theorem C8_termination (target : Img) (palletize : Bool) (lineLen : Int)
    (ρ : Nat → Nat) (sd st : Nat → Bool) :
    (∀ l : Int, 0 ≤ l → ∀ (fuel : Nat) (s : LoopSt), l.toNat ≤ fuel →
      runLoop target (buildPalette target palletize) l lineLen ρ sd st fuel 0 s =
        iterN target (buildPalette target palletize) lineLen ρ sd st l.toNat 0 s) ∧
    (∀ l : Int, l < 0 → ∀ i : Int, loopCond i l = true) ∧
    (∀ (l : Int) (fuel : Nat), 0 ≤ l → l.toNat ≤ fuel → ∀ sfin : LoopSt,
      iterN target (buildPalette target palletize) lineLen ρ sd st l.toNat 0
        (initSt target.w target.h) = .ok sfin →
      sketchRun target palletize l lineLen ρ sd st fuel = .ok (sfin.incr, [sfin.best])) ∧
    (∀ fuel : Nat,
      sketchRun target palletize 0 lineLen ρ sd st fuel =
        .ok ([], [bgImg target.w target.h])) := by
  refine ⟨?_, ?_, ?_, ?_⟩
  · intro l hl fuel s hf
    exact runLoop_eq_iterN target (buildPalette target palletize) l lineLen ρ sd st hl
      l.toNat fuel 0 s (by omega) hf
  · intro l hl i
    exact loopCond_neg i l hl
  · intro l fuel hl hf sfin hiter
    unfold sketchRun
    rw [runLoop_eq_iterN target (buildPalette target palletize) l lineLen ρ sd st hl
      l.toNat fuel 0 _ (by omega) hf, hiter]
  · intro fuel
    unfold sketchRun
    rw [runLoop_budget_zero]
    rfl

/-- C8 witness: budget 0 on the 1×1 target emits exactly the one background
frame; a negative budget's guard is true at an arbitrary index. -/
theorem C8_termination_witness :
    sketchRun wTgt false 0 1 rho0 never never 3 = .ok ([], [bgImg 1 1]) ∧
    loopCond 9 (-2) = true :=
  ⟨(C8_termination wTgt false 1 rho0 never never).2.2.2 3,
   (C8_termination wTgt false 1 rho0 never never).2.1 (-2) (by norm_num) 9⟩

/-- C10: For every pair of endpoints, including endpoints outside the image
bounds (which the generator can produce, since the second endpoint is the
first plus an unclamped offset), scoring, drawing and committing never
fault: out-of-bounds pixel reads return the zero pixel, out-of-bounds pixel
writes are no-ops, and under a valid configuration every iteration of the
loop succeeds regardless of where its endpoints land. -/
theorem C10_oob_total :
    (∀ (img : Img) (x y : Int), ¬ inB img.w img.h x y → atP img x y = Pixel.zero) ∧
    (∀ (img : Img) (x y : Int) (c : Pixel), ¬ inB img.w img.h x y →
      setP img x y c = img) ∧
    (∀ (target : Img) (palette : List Pixel) (lineLen : Int) (ρ : Nat → Nat)
        (sd st : Nat → Bool) (i : Nat) (s : LoopSt),
      0 < target.w → 0 < target.h → 0 < lineLen → palette ≠ [] →
      ∃ s', iterBody target palette lineLen ρ sd st i s = some s') :=
  ⟨atP_out, setP_out, iterBody_total⟩

/-- C10 witness: an out-of-bounds read and write on a 1×1 image, and a
successful iteration whose generated second endpoint `(-20, -20)` lies far
outside the bounds. -/
theorem C10_oob_total_witness :
    atP tImg 5 9 = Pixel.zero ∧
    setP tImg 5 9 bgPixel = tImg ∧
    ∃ s', iterBody wTgt [p7] 40 rho0 never never 0 (initSt 1 1) = some s' :=
  ⟨C10_oob_total.1 tImg 5 9 (by decide),
   C10_oob_total.2.1 tImg 5 9 bgPixel (by decide),
   C10_oob_total.2.2 wTgt [p7] 40 rho0 never never 0 (initSt 1 1)
     (by decide) (by decide) (by decide) (by decide)⟩

end Sketchfy
